import Mathlib

/-!
Shallow embedding of the GPU-accelerated PIV pipeline (gpu_process.py,
gpu_validation.py) and proofs about it.

Conventions of the embedding:
* 32-bit machine floats are modelled as exact rationals (ℚ); float arrays
  become total functions `ℤ → ℚ` or `ℕ → ℚ` (reads outside the allocated
  range of an array are modelled by the function's value there, which is
  unconstrained unless stated).
* Python ints and C ints are modelled as ℤ or ℕ; Python `//` on ints and
  C-style clamped index arithmetic are written with explicit `Int.fdiv`
  and `Int.floor`.
* CUDA kernels, which run one thread per element with no cross-element
  dependence, are modelled as per-element functions; batched index-update
  kernels become folds over explicit index lists.
-/

set_option maxRecDepth 100000

namespace PivGpu

/-! ### Neighbour slots and the 8-element sorting network
(gpu_validation.py, `gpu_median_vel` / `gpu_median_fluc` kernels) -/

/-- One neighbour slot of the median kernels: a value (entry of the `A`
array) together with its present/absent flag (entry of the `B` array;
the kernels store the flags as floats 0.0/1.0, modelled by `Bool`). -/
structure Slot where
  val : ℚ
  present : Bool
deriving DecidableEq

/-- The key by which the kernels' `compare` orders slots: the device code
swaps slots `a`,`b` exactly when `B[a] < B[b]`, or when `B[a] == B[b]`
and `A[a] > A[b]` (the C expression `B[a] == B[b] == 1` parses as
`(B[a] == B[b]) == 1`, i.e. flag equality).  That is the strict order of
the lexicographic key (not-present, value). -/
def slotKey (s : Slot) : Bool ×ₗ ℚ :=
  toLex (!s.present, s.val)

instance : LinearOrder Slot :=
  LinearOrder.lift' slotKey (by
    intro s t h
    cases s with
    | mk sv sp =>
      cases t with
      | mk tv tp =>
        have h' : ((!sp, sv) : Bool × ℚ) = (!tp, tv) := congrArg (⇑ofLex) h
        have h1 : (!sp) = (!tp) := congrArg Prod.fst h'
        have h2 : sv = tv := congrArg Prod.snd h'
        have h3 : sp = tp := by
          cases sp <;> cases tp <;> simp_all
        simp [h2, h3])

/-- One comparator of the network: swap the two slots when the one at the
first wire is strictly greater (`compare` in the CUDA modules of
`gpu_median_vel` and `gpu_median_fluc`, which swaps `A` and `B`
together). -/
def cswap {α : Type} [LinearOrder α] (x : Fin 8 → α) (p : Fin 8 × Fin 8) : Fin 8 → α :=
  if x p.2 < x p.1 then
    fun i => if i = p.1 then x p.2 else if i = p.2 then x p.1 else x i
  else x

/-- The 19 comparators of the device `sort` function, in program order. -/
def net8 : List (Fin 8 × Fin 8) :=
  [(0,1),(2,3),(4,5),(6,7),(0,2),(1,3),(4,6),(5,7),(1,2),(5,6),(0,4),(3,7),
   (1,5),(2,6),(1,4),(3,6),(2,4),(3,5),(3,4)]

/-- Run the full 8-wire sorting network. -/
def runNet {α : Type} [LinearOrder α] (x : Fin 8 → α) : Fin 8 → α :=
  net8.foldl cswap x

/-- `N`, the number of present neighbours, as the kernels compute it after
sorting: `B[0] + B[1] + ... + B[7]`. -/
def presentCount (t : Fin 8 → Slot) : ℕ :=
  ((List.finRange 8).map t).countP (fun c => c.present)

/-- Read of the sorted value array `A[n]` (the kernels only read indices
that are in range when at least one neighbour is present). -/
def valAt (t : Fin 8 → Slot) (n : ℕ) : ℚ :=
  if h : n < 8 then (t ⟨n, h⟩).val else 0

/-- The median returned by the `u_median_vel` / `v_median_vel` /
`u_fluc_k` / `v_fluc_k` kernels: sort the 8 slots, count the present
ones, then take `A[N/2]` for odd `N` and `(A[N/2-1] + A[N/2])/2` for
even `N`. -/
def medianNetwork (s : Fin 8 → Slot) : ℚ :=
  let t := runNet s
  let nPres := presentCount t
  if nPres % 2 = 0 then (valAt t (nPres / 2 - 1) + valAt t (nPres / 2)) / 2
  else valAt t (nPres / 2)

/-- The values of the present slots, in wire order. -/
def presentVals (s : Fin 8 → Slot) : List ℚ :=
  (((List.finRange 8).map s).filter (fun c => c.present)).map Slot.val

/-- Straightforward sort-and-pick reference median of a list of values. -/
def medianRef (l : List ℚ) : ℚ :=
  let srt := l.mergeSort (fun a b => decide (a ≤ b))
  if l.length % 2 = 0 then (srt.getD (l.length / 2 - 1) 0 + srt.getD (l.length / 2) 0) / 2
  else srt.getD (l.length / 2) 0

/-! ### Grid geometry (gpu_process.py, `get_field_shape` and
`PIVGPU.__init__`) -/

/-- Python `int(q)` on a float: truncation toward zero. -/
def pyInt (q : ℚ) : ℤ :=
  if 0 ≤ q then ⌊q⌋ else ⌈q⌉

/-- `get_field_shape(image_size, window_size, overlap_ratio)`:
`spacing = window_size * overlap_ratio` (an exact product, kept as a
float in the source), then `n_row = (ht - spacing) // spacing` and
`n_col = (wd - spacing) // spacing` by float floor-division. -/
def get_field_shape (ht wd ws : ℕ) (r : ℚ) : ℤ × ℤ :=
  let spacing : ℚ := (ws : ℚ) * r
  (⌊((ht : ℚ) - spacing) / spacing⌋, ⌊((wd : ℚ) - spacing) / spacing⌋)

/-- The per-iteration spacing of `PIVGPU.__init__`:
`self.spacing[K] = self.ws[K] - int(self.ws[K] * overlap_ratio)`. -/
def pivgpu_spacing (ws : ℕ) (r : ℚ) : ℤ :=
  (ws : ℤ) - pyInt ((ws : ℚ) * r)

/-- The per-iteration grid shape of `PIVGPU.__init__`:
`n_row[K] = (ht - spacing[K]) // spacing[K]` and likewise for columns,
by Python integer floor-division. -/
def pivgpu_field_shape (ht wd ws : ℕ) (r : ℚ) : ℤ × ℤ :=
  let sp := pivgpu_spacing ws r
  (Int.fdiv ((ht : ℤ) - sp) sp, Int.fdiv ((wd : ℤ) - sp) sp)

/-! ### Batched index updates (`_gpu_index_update`) -/

/-- The `index_update` kernel: `dest[indices[t]] = values[t]` for each
`t`; the batch is modelled as a left fold over the (index, value)
pairs.  All call sites pass strictly increasing index lists, so the
fold order never matters there. -/
def updList (f : ℤ → ℚ) (ps : List (ℤ × ℚ)) : ℤ → ℚ :=
  ps.foldl (fun g p => Function.update g p.1 p.2) f

/-! ### The dichotomy bracket search (`_f_dichotomy_gpu`) -/

/-- One thread of the `f_dichotomy_x` / `f_dichotomy_y` kernels (the two
bodies are identical up to naming).  `rng` is the flattened
`(2, NMax)` slice of grid coordinates passed by the caller (row 0 the
iteration-`k` axis coordinates, row 1 the iteration-`k+1` ones); reads
outside that slice are out-of-bounds reads of the device array and are
modelled by the unconstrained values of `rng`.  Returns `(low, high)`
after the three bound corrections, exactly in program order. -/
def fDichotomy (rng : ℤ → ℚ) (pos : ℕ) (wa wb dxa dxb : ℚ) (nAxis nMax : ℕ) : ℤ × ℤ :=
  let low0 : ℤ := ⌊(wa / 2 - wb / 2 + (pos : ℚ) * dxa) / dxb⌋
  let high0 : ℤ := low0 + (if rng ((nMax : ℤ) + (pos : ℤ)) ≠ rng low0 then 1 else 0)
  let low1 : ℤ := low0 * (if 0 ≤ low0 then 1 else 0)
  let high1 : ℤ := high0 * (if 0 ≤ low1 then 1 else 0)
  let low2 : ℤ := low1 + ((nAxis : ℤ) - 1 - low1) * (if (nAxis : ℤ) - 1 < high1 then 1 else 0)
  let high2 : ℤ := high1 + ((nAxis : ℤ) - 1 - high1) * (if (nAxis : ℤ) - 1 < high1 then 1 else 0)
  (low2, high2)

/-! ### Interpolation kernels (`bilinear_interp_gpu`, `linear_interp_gpu`) -/

/-- Rational indicator of a decidable proposition, modelling the C idiom
`(float)(cond)`. -/
def ind (p : Prop) [Decidable p] : ℚ :=
  if p then 1 else 0

/-- The `bilinear_interp` kernel, statement by statement, including its
degenerate-axis guards. -/
def bilinear_interp (x1 x2 y1 y2 x y f1 f2 f3 f4 : ℚ) : ℚ :=
  let n1a := f1 * (x2 - x) * (y2 - y)
  let n1b := n1a * ind (y1 ≠ y2) + f1 * ind (y1 = y2) * (x2 - x)
  let n1c := n1b * ind (x1 ≠ x2) + f1 * ind (x1 = x2) * (y2 - y)
  let n1 := n1c * ind (y1 ≠ y2 ∨ x1 ≠ x2) + f1 * ind (y1 = y2 ∧ x1 = x2)
  let n2a := f2 * (x2 - x) * (y - y1)
  let n2b := n2a * ind (x1 ≠ x2) + f2 * ind (x1 = x2) * (y - y1)
  let n2 := n2b * ind (y1 ≠ y2)
  let n3a := f3 * (x - x1) * (y2 - y)
  let n3b := n3a * ind (y1 ≠ y2) + f3 * ind (y1 = y2) * (x - x1)
  let n3 := n3b * ind (x1 ≠ x2) * ind (x1 ≠ x2)
  let n4a := f4 * (x - x1) * (y - y1)
  let n4 := n4a * ind (y1 ≠ y2) * ind (x1 ≠ x2)
  let num := n1 + n2 + n3 + n4
  let d1 := (x2 - x1) * (y2 - y1)
  let d2 := d1 * ind (x1 ≠ x2) + (y2 - y1) * ind (x1 = x2)
  let d3 := d2 * ind (y1 ≠ y2) + (x2 - x1) * ind (y1 = y2)
  let d4 := d3 * ind (y1 ≠ y2 ∨ x1 ≠ x2) + 1 * ind (y1 = y2 ∧ x1 = x2)
  num / d4

/-- The `linear_interp` kernel with its coincident-endpoint guard. -/
def linear_interp (x1 x2 x f1 f2 : ℚ) : ℚ :=
  let tmp := (x2 - x) / (x2 - x1) * f1 + (x - x1) / (x2 - x1) * f2
  tmp * ind (x2 ≠ x1) + f1 * ind (x2 = x1)

/-! ### Cross-iteration interpolation (`gpu_interpolate_surroundings`)

The function receives the previous-iteration field `f` (shape
`m1 × n1`, flattened row-major) and the current field `fnew` (shape
`m2 × n2`), a 2-D flag array `vlist` (`true` = replace this node), the
axis-coordinate slices it reads, and the scalars fed to the dichotomy
search.  All device arrays are modelled flat. -/

structure InterpCtx where
  /-- `n_row[k]`, rows of the previous grid. -/
  m1 : ℕ
  /-- `n_col[k]`, columns of the previous grid. -/
  n1 : ℕ
  /-- `n_row[k+1]`, rows of the current grid. -/
  m2 : ℕ
  /-- `n_col[k+1]`, columns of the current grid. -/
  n2 : ℕ
  /-- `n_row[-1]`, the row capacity of the coordinate arrays. -/
  nrwMax : ℕ
  /-- `n_col[-1]`, the column capacity of the coordinate arrays. -/
  nclMax : ℕ
  /-- `w[k+1]` as a float. -/
  wa : ℚ
  /-- `w[k]` as a float. -/
  wb : ℚ
  /-- `w[k+1] - overlap[k+1]`, the x-axis spacing of the current grid. -/
  dxa : ℚ
  /-- `w[k] - overlap[k]`, the x-axis spacing of the previous grid. -/
  dxb : ℚ
  /-- y-axis spacing of the current grid (same formula). -/
  dya : ℚ
  /-- y-axis spacing of the previous grid (same formula). -/
  dyb : ℚ
  /-- `x_d[k:k+2, :, 0]` flattened, fed to the x-axis dichotomy. -/
  rngx : ℤ → ℚ
  /-- `y_d[k:k+2, 0, :]` flattened, fed to the y-axis dichotomy. -/
  rngy : ℤ → ℚ
  /-- `x_d[k, :, 0]`, bracket x-coordinates of the previous grid. -/
  xkc0 : ℤ → ℚ
  /-- `x_d[k+1, :, 0]`, target x-coordinates of the current grid. -/
  xk1c0 : ℤ → ℚ
  /-- `y_d[k, 0, :]`, bracket y-coordinates of the previous grid. -/
  ykr0 : ℤ → ℚ
  /-- `y_d[k+1, 0, :]`, target y-coordinates of the current grid. -/
  yk1r0 : ℤ → ℚ
  /-- `y_d[k, n_row[k]-1, :]`, used by the bottom-edge pass. -/
  ykbot : ℤ → ℚ
  /-- `y_d[k+1, n_row[k+1]-1, :]`, used by the bottom-edge pass. -/
  yk1bot : ℤ → ℚ
  /-- `x_d[k, :, n_col[k]-1]`, used by the right-edge pass. -/
  xkrt : ℤ → ℚ
  /-- `x_d[k+1, :, n_col[k+1]-1]`, used by the right-edge pass. -/
  xk1rt : ℤ → ℚ

/-- Flat indices of the interior nodes to replace: the flag array with
its four border rows/columns zeroed, flattened by `np.where`. -/
def interiorInd (c : InterpCtx) (vlist : ℕ → ℕ → Bool) : List ℕ :=
  (List.range (c.m2 * c.n2)).filter fun t =>
    vlist (t / c.n2) (t % c.n2) && !decide (t / c.n2 = 0) && !decide (t / c.n2 = c.m2 - 1)
      && !decide (t % c.n2 = 0) && !decide (t % c.n2 = c.n2 - 1)

/-- Bilinear replacement value of one interior node with flat index `t`:
dichotomy brackets on both axes, then the bilinear kernel on the four
surrounding previous-grid values. -/
def interiorVal (c : InterpCtx) (f : ℤ → ℚ) (t : ℕ) : ℚ :=
  let ix := t / c.n2
  let iy := t % c.n2
  let bx := fDichotomy c.rngx ix c.wa c.wb c.dxa c.dxb c.m1 c.nrwMax
  let by' := fDichotomy c.rngy iy c.wa c.wb c.dya c.dyb c.n1 c.nclMax
  bilinear_interp (c.xkc0 bx.1) (c.xkc0 bx.2) (c.ykr0 by'.1) (c.ykr0 by'.2)
    (c.xk1c0 (ix : ℤ)) (c.yk1r0 (iy : ℤ))
    (f (bx.1 * (c.n1 : ℤ) + by'.1)) (f (bx.1 * (c.n1 : ℤ) + by'.2))
    (f (bx.2 * (c.n1 : ℤ) + by'.1)) (f (bx.2 * (c.n1 : ℤ) + by'.2))

/-- Column indices of the top-edge nodes to replace (corners excluded). -/
def topInd (c : InterpCtx) (vlist : ℕ → ℕ → Bool) : List ℕ :=
  (List.range c.n2).filter fun j =>
    vlist 0 j && !decide (j = 0) && !decide (j = c.n2 - 1)

/-- Linear replacement value of a top-edge node in column `j`. -/
def topVal (c : InterpCtx) (f : ℤ → ℚ) (j : ℕ) : ℚ :=
  let by' := fDichotomy c.rngy j c.wa c.wb c.dya c.dyb c.n1 c.nclMax
  linear_interp (c.ykr0 by'.1) (c.ykr0 by'.2) (c.yk1r0 (j : ℤ)) (f by'.1) (f by'.2)

/-- Column indices of the bottom-edge nodes to replace. -/
def bottomInd (c : InterpCtx) (vlist : ℕ → ℕ → Bool) : List ℕ :=
  (List.range c.n2).filter fun j =>
    vlist (c.m2 - 1) j && !decide (j = 0) && !decide (j = c.n2 - 1)

/-- Linear replacement value of a bottom-edge node in column `j`; the
previous-grid values are read from the last row of `f`. -/
def bottomVal (c : InterpCtx) (f : ℤ → ℚ) (j : ℕ) : ℚ :=
  let by' := fDichotomy c.rngy j c.wa c.wb c.dya c.dyb c.n1 c.nclMax
  linear_interp (c.ykbot by'.1) (c.ykbot by'.2) (c.yk1bot (j : ℤ))
    (f (((c.m1 : ℤ) - 1) * (c.n1 : ℤ) + by'.1)) (f (((c.m1 : ℤ) - 1) * (c.n1 : ℤ) + by'.2))

/-- Row indices of the left-edge nodes to replace. -/
def leftInd (c : InterpCtx) (vlist : ℕ → ℕ → Bool) : List ℕ :=
  (List.range c.m2).filter fun i =>
    vlist i 0 && !decide (i = 0) && !decide (i = c.m2 - 1)

/-- Linear replacement value of a left-edge node in row `i`; reads
column 0 of `f`. -/
def leftVal (c : InterpCtx) (f : ℤ → ℚ) (i : ℕ) : ℚ :=
  let bx := fDichotomy c.rngx i c.wa c.wb c.dxa c.dxb c.m1 c.nrwMax
  linear_interp (c.xkc0 bx.1) (c.xkc0 bx.2) (c.xk1c0 (i : ℤ))
    (f (bx.1 * (c.n1 : ℤ))) (f (bx.2 * (c.n1 : ℤ)))

/-- Row indices of the right-edge nodes to replace. -/
def rightInd (c : InterpCtx) (vlist : ℕ → ℕ → Bool) : List ℕ :=
  (List.range c.m2).filter fun i =>
    vlist i (c.n2 - 1) && !decide (i = 0) && !decide (i = c.m2 - 1)

/-- Linear replacement value of a right-edge node in row `i`; reads the
last column of `f`. -/
def rightVal (c : InterpCtx) (f : ℤ → ℚ) (i : ℕ) : ℚ :=
  let bx := fDichotomy c.rngx i c.wa c.wb c.dxa c.dxb c.m1 c.nrwMax
  linear_interp (c.xkrt bx.1) (c.xkrt bx.2) (c.xk1rt (i : ℤ))
    (f (bx.1 * (c.n1 : ℤ) + ((c.n1 : ℤ) - 1))) (f (bx.2 * (c.n1 : ℤ) + ((c.n1 : ℤ) - 1)))

/-- A guarded single-cell write, modelling the four corner statements. -/
def guardUpd (g : Bool) (key : ℤ) (v : ℚ) (s : ℤ → ℚ) : ℤ → ℚ :=
  if g then Function.update s key v else s

/-- `gpu_interpolate_surroundings`: replace the flagged nodes of `fnew`
region by region — interior (bilinear), top/bottom/left/right edges
(linear), then the four corners (copied from the matching corner of
`f`).  Current-grid nodes are flattened row-major with `c.n2` columns,
so node `(i, j)` is flat index `i * c.n2 + j`. -/
def interpolate_surroundings (c : InterpCtx) (vlist : ℕ → ℕ → Bool)
    (f fnew : ℤ → ℚ) : ℤ → ℚ :=
  let s1 := updList fnew ((interiorInd c vlist).map fun (t : ℕ) => ((t : ℤ), interiorVal c f t))
  let s2 := updList s1 ((topInd c vlist).map fun (j : ℕ) => ((j : ℤ), topVal c f j))
  let s3 := updList s2 ((bottomInd c vlist).map fun j =>
    (((c.m2 - 1) * c.n2 + j : ℕ), bottomVal c f j))
  let s4 := updList s3 ((leftInd c vlist).map fun (i : ℕ) => (((i * c.n2 : ℕ) : ℤ), leftVal c f i))
  let s5 := updList s4 ((rightInd c vlist).map fun i =>
    ((i * c.n2 + (c.n2 - 1) : ℕ), rightVal c f i))
  let s6 := guardUpd (vlist 0 0) ((0 : ℕ) : ℤ) (f 0) s5
  let s7 := guardUpd (vlist 0 (c.n2 - 1)) ((c.n2 - 1 : ℕ) : ℤ) (f ((c.n1 : ℤ) - 1)) s6
  let s8 := guardUpd (vlist (c.m2 - 1) 0) (((c.m2 - 1) * c.n2 : ℕ) : ℤ)
    (f (((c.m1 : ℤ) - 1) * (c.n1 : ℤ))) s7
  guardUpd (vlist (c.m2 - 1) (c.n2 - 1)) (((c.m2 - 1) * c.n2 + (c.n2 - 1) : ℕ) : ℤ)
    (f (((c.m1 : ℤ) - 1) * (c.n1 : ℤ) + ((c.n1 : ℤ) - 1))) s8

/-! ### Vector replacement (`gpu_replace_vectors`) -/

/-- The common pattern of the first-iteration and same-shape branches of
`gpu_replace_vectors`: gather the flat indices where the inverted
validation list is true (`np.where` returns them in increasing order),
read the replacement source there, and write those entries of `dest`. -/
def replaceByField (m n : ℕ) (flagged : ℕ → Bool) (src dest : ℤ → ℚ) : ℤ → ℚ :=
  updList dest (((List.range (m * n)).filter flagged).map fun (t : ℕ) => ((t : ℤ), src (t : ℤ)))

/-- `gpu_replace_vectors(x, y, u, v, u_previous, v_previous, val_list,
u_mean, v_mean, k, n_row, n_col, w, overlap)`.  `valList` is the int
mask returned by the validation stage; the function first inverts it
(`validation_location = np.invert(validation_list.astype(bool))`), so
the nodes acted on are exactly those with entry 0.  The previous grid
shape is `(c.m1, c.n1)` and the current one `(c.m2, c.n2)`. -/
def gpu_replace_vectors (k : ℕ) (c : InterpCtx) (u v uprev vprev umean vmean : ℤ → ℚ)
    (valList : ℕ → ℤ) : (ℤ → ℚ) × (ℤ → ℚ) :=
  let flagged : ℕ → Bool := fun t => decide (valList t = 0)
  if k = 0 then
    (replaceByField c.m2 c.n2 flagged umean u, replaceByField c.m2 c.n2 flagged vmean v)
  else if c.m2 ≠ c.m1 ∨ c.n2 ≠ c.n1 then
    (interpolate_surroundings c (fun i j => flagged (i * c.n2 + j)) uprev u,
     interpolate_surroundings c (fun i j => flagged (i * c.n2 + j)) vprev v)
  else
    (replaceByField c.m2 c.n2 flagged uprev u, replaceByField c.m2 c.n2 flagged vprev v)

/-! ### Neighbour tables (gpu_validation.py, `gpu_find_neighbours` and
`_gpu_get_neighbours`)

Velocity fields are flattened row-major over an `m × n` grid; `w` is
the flat node index. -/

/-- `find_neighbours`: presence flag of the 3×3 neighbour in position
`q ∈ 0..8` (row-major; position 4 is the centre and is always 0). -/
def neighboursPresent (m n w q : ℕ) : Bool :=
  let rowZero := decide (n ≤ w)
  let rowMax := decide (w < n * (m - 1))
  let colZero := decide (w % n ≠ 0)
  let colMax := decide (w % n ≠ n - 1)
  match q with
  | 0 => rowZero && colZero
  | 1 => rowZero
  | 2 => rowZero && colMax
  | 3 => colZero
  | 4 => false
  | 5 => colMax
  | 6 => rowMax && colZero
  | 7 => rowMax
  | 8 => rowMax && colMax
  | _ => false

/-- Flat-index offset of neighbour position `q` on an `n`-column grid. -/
def neighbourOffset (n q : ℕ) : ℤ :=
  match q with
  | 0 => -(n : ℤ) - 1
  | 1 => -(n : ℤ)
  | 2 => -(n : ℤ) + 1
  | 3 => -1
  | 4 => 0
  | 5 => 1
  | 6 => (n : ℤ) - 1
  | 7 => (n : ℤ)
  | 8 => (n : ℤ) + 1
  | _ => 0

/-- `get_u_neighbours` / `get_v_neighbours`: the neighbour-value table,
written only where the presence flag is set (the array is allocated
zero-filled, so absent entries stay 0). -/
def neighbourVal (m n : ℕ) (u : ℤ → ℚ) (w q : ℕ) : ℚ :=
  if neighboursPresent m n w q then u ((w : ℤ) + neighbourOffset n q) else 0

/-- The wire order in which the median kernels load the 8 non-centre
neighbours into `A`/`B` (positions 0,1,2,3,5,6,7,8). -/
def qIdx : Fin 8 → ℕ := ![0, 1, 2, 3, 5, 6, 7, 8]

/-- The 8 slots the `u_median_vel`-style kernels sort for node `w`. -/
def nodeSlots (m n : ℕ) (u : ℤ → ℚ) (w : ℕ) : Fin 8 → Slot :=
  fun i => ⟨neighbourVal m n u w (qIdx i), neighboursPresent m n w (qIdx i)⟩

/-- `gpu_median_vel` per node: median of the neighbour slots. -/
def medianVel (m n : ℕ) (u : ℤ → ℚ) (w : ℕ) : ℚ :=
  medianNetwork (nodeSlots m n u w)

/-- The slots the `u_fluc_k` median kernels sort: absolute deviations of
all 8 table entries from the node's median, with the same flags. -/
def flucSlots (m n : ℕ) (u : ℤ → ℚ) (med : ℚ) (w : ℕ) : Fin 8 → Slot :=
  fun i => ⟨|neighbourVal m n u w (qIdx i) - med|, neighboursPresent m n w (qIdx i)⟩

/-- `gpu_median_fluc` per node. -/
def medianFluc (m n : ℕ) (u : ℤ → ℚ) (w : ℕ) : ℚ :=
  medianNetwork (flucSlots m n u (medianVel m n u w) w)

/-- Presence flag as the float 0/1 the mean kernels sum. -/
def npF (m n w q : ℕ) : ℚ :=
  if neighboursPresent m n w q then 1 else 0

/-- `gpu_mean_vel` per node: sum of the 8 table entries over the number
of present neighbours (an isolated node divides by zero; in this
rational model that division yields 0). -/
def meanVel (m n : ℕ) (u : ℤ → ℚ) (w : ℕ) : ℚ :=
  let nv := neighbourVal m n u w
  (nv 0 + nv 1 + nv 2 + nv 3 + nv 5 + nv 6 + nv 7 + nv 8) /
    (npF m n w 0 + npF m n w 1 + npF m n w 2 + npF m n w 3 + npF m n w 5 + npF m n w 6
      + npF m n w 7 + npF m n w 8)

/-- `gpu_mean_fluc` per node: mean absolute deviation of all 8 table
entries (absent entries contribute `|0 - mean|`, as in the kernel). -/
def meanFluc (m n : ℕ) (u : ℤ → ℚ) (w : ℕ) : ℚ :=
  let mv := meanVel m n u w
  let nv := neighbourVal m n u w
  (|nv 0 - mv| + |nv 1 - mv| + |nv 2 - mv| + |nv 3 - mv| + |nv 5 - mv| + |nv 6 - mv|
      + |nv 7 - mv| + |nv 8 - mv|) /
    (npF m n w 0 + npF m n w 1 + npF m n w 2 + npF m n w 3 + npF m n w 5 + npF m n w 6
      + npF m n w 7 + npF m n w 8)

/-! ### Validation (gpu_validation.py, `gpu_validation`) -/

/-- `_local_validation`: its device module defines the kernel under the
name `validation` (gpu_validation.py:121), but the host then fetches it
as `get_function("local_validation")` (gpu_validation.py:131), a name
the module does not export; that lookup raises a LogicError (named
symbol not found) on every call, before the kernel can launch, so this
function never returns a list. -/
def localValidation (_val : Option (ℕ → ℤ)) (_f : ℕ → ℚ) (_tol : ℚ) :
    Except String (ℕ → ℤ) :=
  Except.error "cuModuleGetFunction failed: named symbol not found"

/-- `_neighbour_validation`: seed with ones when absent, then multiply by
the indicator of `|f - f_mean| / (f_fluc + 0.1) < tol`. -/
def neighbourValidation (val : Option (ℕ → ℤ)) (f fmean ffluc : ℕ → ℚ) (tol : ℚ) : ℕ → ℤ :=
  fun t => (match val with | none => 1 | some g => g t) *
    (if |f t - fmean t| / (ffluc t + 1 / 10) < tol then 1 else 0)

/-- Which validation criteria are enabled and their tolerances
(`'s2n' in validation_method`, etc.). -/
structure ValCfg where
  useS2n : Bool
  useMedian : Bool
  useMean : Bool
  useRms : Bool
  s2nTol : ℚ
  medianTol : ℚ
  meanTol : ℚ
  rmsTol : ℚ

/-- `gpu_validation`'s returned `val_locations` list.  The criterion
blocks run in program order.  If the s2n criterion is enabled, the
first block calls `_local_validation`, which raises on every call (see
`localValidation`), so on that path the function returns no list at
all.  The median/mean/rms blocks each chain the list through
`_neighbour_validation` for `u` then `v`; with no criterion enabled the
function returns `None`.  The rms pass applies the same
`_neighbour_validation` chain with `gpu_rms`'s output as the deviation
field; `gpu_rms` takes a float square root (`sqrtf`), which has no
exact rational counterpart, so its per-node output enters this model
as the unconstrained fields `urms`, `vrms` (the polarity of the mask
is independent of those values). -/
def gpu_validation_val (m n : ℕ) (u v : ℤ → ℚ) (s2n urms vrms : ℕ → ℚ)
    (cfg : ValCfg) : Except String (Option (ℕ → ℤ)) :=
  match (if cfg.useS2n then Except.map some (localValidation none s2n cfg.s2nTol)
      else Except.ok none) with
  | Except.error e => Except.error e
  | Except.ok v1 =>
  let v2 := if cfg.useMedian then
      some (neighbourValidation
        (some (neighbourValidation v1 (fun t => u (t : ℤ)) (medianVel m n u)
          (medianFluc m n u) cfg.medianTol))
        (fun t => v (t : ℤ)) (medianVel m n v) (medianFluc m n v) cfg.medianTol)
    else v1
  let v3 := if cfg.useMean then
      some (neighbourValidation
        (some (neighbourValidation v2 (fun t => u (t : ℤ)) (meanVel m n u)
          (meanFluc m n u) cfg.meanTol))
        (fun t => v (t : ℤ)) (meanVel m n v) (meanFluc m n v) cfg.meanTol)
    else v2
  let v4 := if cfg.useRms then
      some (neighbourValidation
        (some (neighbourValidation v3 (fun t => u (t : ℤ)) (meanVel m n u) urms cfg.rmsTol))
        (fun t => v (t : ℤ)) (meanVel m n v) vrms cfg.rmsTol)
    else v3
  Except.ok v4

/-- The per-node pass condition of the median-velocity criterion for one
component, as tested by `_neighbour_validation`. -/
def medianPass (m n : ℕ) (u : ℤ → ℚ) (tol : ℚ) (t : ℕ) : Prop :=
  |u (t : ℤ) - medianVel m n u t| / (medianFluc m n u t + 1 / 10) < tol

/-- The per-node pass condition of the mean-velocity criterion. -/
def meanPass (m n : ℕ) (u : ℤ → ℚ) (tol : ℚ) (t : ℕ) : Prop :=
  |u (t : ℤ) - meanVel m n u t| / (meanFluc m n u t + 1 / 10) < tol

/-- The per-node pass condition of the rms criterion, with the sqrt-based
deviation field abstracted as `urms`. -/
def rmsPass (m n : ℕ) (u : ℤ → ℚ) (urms : ℕ → ℚ) (tol : ℚ) (t : ℕ) : Prop :=
  |u (t : ℤ) - meanVel m n u t| / (urms t + 1 / 10) < tol

/-! ### Peak extraction (gpu_process.py, `GPUCorrelation._find_peak`) -/

/-- `np.argmax` over the flattened correlation map: index of the first
occurrence of the maximum among indices `0..size-1`. -/
def argmaxIdx (corr : ℕ → ℚ) (size : ℕ) : ℕ :=
  (List.range size).foldl (fun best i => if corr best < corr i then i else best) 0

/-- `_find_peak` for one window: arg-max row/column and peak value over
an `fft_size × fft_size` map, with row and column replaced by the map
centre `w = int(fft_size / 2)` when the peak value is below 0.1. -/
def findPeak (fftSize : ℕ) (corr : ℕ → ℚ) : ℕ × ℕ × ℚ :=
  let maxIdx := argmaxIdx corr (fftSize * fftSize)
  let maximum := corr maxIdx
  let row := maxIdx / fftSize
  let col := maxIdx % fftSize
  let w := fftSize / 2
  if maximum < 1 / 10 then (w, w, maximum) else (row, col, maximum)

/-! ### Signal-to-noise ratio (gpu_process.py,
`GPUCorrelation.sig2noise_ratio`) -/

/-- The elementwise tail of `sig2noise_ratio` for one window, after the
method dispatch produced the denominator `corrMax2` (second peak for
`peak2peak`, map mean for `peak2mean`): replace a zero denominator by
`1e-20`, divide, zero the result when the first peak is below `1e-3`,
and finally apply the border rule, whose mask multiplies the four
conditions `peak_row == 0`, `peak_row == fft_size`, `peak_col == 0`
and `peak_col == fft_size` (the `np.isnan` write never fires in this
exact-arithmetic model because the zero denominator was replaced). -/
def sig2noise_one (fftSize : ℕ) (corrMax1 : ℚ) (peakRow peakCol : ℕ) (corrMax2 : ℚ) : ℚ :=
  let c2 := if corrMax2 = 0 then 1 / 10 ^ 20 else corrMax2
  let s0 := corrMax1 / c2
  let s1 := if corrMax1 < 1 / 1000 then 0 else s0
  if peakRow = 0 ∧ peakRow = fftSize ∧ peakCol = 0 ∧ peakCol = fftSize then 0 else s1

/-- The method dispatch at the top of `sig2noise_ratio`: `peak2peak` and
`peak2mean` select their denominator field; any other method name
raises `ValueError` before any signal-to-noise value is computed. -/
def sig2noise_method_choice (method : String) (secondPeak mapMean : ℚ) : Except String ℚ :=
  if method = "peak2peak" then Except.ok secondPeak
  else if method = "peak2mean" then Except.ok mapMean
  else Except.error "wrong sig2noise_method"

/-! ### Terminal state of the orchestrator (gpu_process.py,
`PIVGPU.__call__`) -/

/-- The return values of `PIVGPU.__call__` after the last iteration:
`u = u_last / dt` and `v = v_last / -dt`, elementwise. -/
def pivgpu_terminal (uLast vLast : ℕ → ℚ) (dt : ℚ) : (ℕ → ℚ) × (ℕ → ℚ) :=
  (fun t => uLast t / dt, fun t => vLast t / (-dt))

/-- A small concrete interpolation context used by witnesses: previous
grid 3×3, current grid 4×4, with the window sizes 32 → 16 at overlap
1/2 and constant coordinate arrays. -/
def smallCtx : InterpCtx where
  m1 := 3
  n1 := 3
  m2 := 4
  n2 := 4
  nrwMax := 4
  nclMax := 4
  wa := 16
  wb := 32
  dxa := 8
  dxb := 16
  dya := 8
  dyb := 16
  rngx := fun _ => 0
  rngy := fun _ => 0
  xkc0 := fun _ => 0
  xk1c0 := fun _ => 0
  ykr0 := fun _ => 0
  yk1r0 := fun _ => 0
  ykbot := fun _ => 0
  yk1bot := fun _ => 0
  xkrt := fun _ => 0
  xk1rt := fun _ => 0

/-- The default configuration of `gpu_validation`: median-velocity
validation only, with the default tolerance 2. -/
def medianOnlyCfg : ValCfg where
  useS2n := false
  useMedian := true
  useMean := false
  useRms := false
  s2nTol := 0
  medianTol := 2
  meanTol := 0
  rmsTol := 0

/-- The mask `gpu_validation` returns for a uniform-zero 1×2 field under
the default median-only validation, written out as its
`_neighbour_validation` chain (u component first, then v). -/
def medianOnlyVal : ℕ → ℤ :=
  neighbourValidation
    (some (neighbourValidation none (fun _ => 0) (medianVel 1 2 (fun _ => 0))
      (medianFluc 1 2 (fun _ => 0)) 2))
    (fun _ => 0) (medianVel 1 2 (fun _ => 0)) (medianFluc 1 2 (fun _ => 0)) 2

/-! ## Helper lemmas -/

theorem updList_cons (f : ℤ → ℚ) (p : ℤ × ℚ) (ps : List (ℤ × ℚ)) :
    updList f (p :: ps) = updList (Function.update f p.1 p.2) ps := rfl

theorem updList_not_mem (f : ℤ → ℚ) (ps : List (ℤ × ℚ)) (t : ℤ)
    (h : t ∉ ps.map Prod.fst) : updList f ps t = f t := by
  induction ps generalizing f with
  | nil => rfl
  | cons p rest ih =>
    simp only [List.map_cons, List.mem_cons, not_or] at h
    rw [updList_cons, ih _ h.2]
    exact Function.update_noteq h.1 _ _

theorem updList_mem_const (f : ℤ → ℚ) (ps : List (ℤ × ℚ)) (t : ℤ) (c : ℚ)
    (hc : ∀ p ∈ ps, p.2 = c) (ht : t ∈ ps.map Prod.fst) : updList f ps t = c := by
  induction ps generalizing f with
  | nil => simp at ht
  | cons p rest ih =>
    rw [updList_cons]
    by_cases hm : t ∈ rest.map Prod.fst
    · exact ih _ (fun q hq => hc q (List.mem_cons_of_mem _ hq)) hm
    · simp only [List.map_cons, List.mem_cons] at ht
      rcases ht with ht | ht
      · rw [updList_not_mem _ _ _ hm, ht, Function.update_same]
        exact hc p (List.mem_cons_self _ _)
      · exact absurd ht hm

theorem updList_mem_nodup (f : ℤ → ℚ) (ps : List (ℤ × ℚ)) (t : ℤ) (v : ℚ)
    (hn : (ps.map Prod.fst).Nodup) (hm : (t, v) ∈ ps) : updList f ps t = v := by
  induction ps generalizing f with
  | nil => simp at hm
  | cons p rest ih =>
    rw [updList_cons]
    simp only [List.map_cons, List.nodup_cons] at hn
    rcases List.mem_cons.mp hm with hm | hm
    · have ht : t = p.1 := by rw [← hm]
      have : t ∉ rest.map Prod.fst := ht ▸ hn.1
      rw [updList_not_mem _ _ _ this, ht, Function.update_same, ← hm]
    · exact ih _ hn.2 hm

theorem guardUpd_miss (g : Bool) (key t : ℤ) (v : ℚ) (s : ℤ → ℚ)
    (h : g = false ∨ t ≠ key) : guardUpd g key v s t = s t := by
  rcases h with h | h
  · rw [guardUpd, h]
    rfl
  · rw [guardUpd]
    split
    · exact Function.update_noteq h _ _
    · rfl

/-- Decode a flat row-major index: if `j, j' < n` then
`i * n + j = i' * n + j'` forces `i = i'` and `j = j'`. -/
theorem flat_decode {n i j i' j' : ℕ} (hj : j < n) (hj' : j' < n)
    (h : i * n + j = i' * n + j') : i = i' ∧ j = j' := by
  constructor
  · have h1 : (i * n + j) / n = i := by
      rw [Nat.mul_comm i n, Nat.mul_add_div (Nat.lt_of_le_of_lt (Nat.zero_le _) hj), Nat.div_eq_of_lt hj, Nat.add_zero]
    have h2 : (i' * n + j') / n = i' := by
      rw [Nat.mul_comm i' n, Nat.mul_add_div (Nat.lt_of_le_of_lt (Nat.zero_le _) hj), Nat.div_eq_of_lt hj', Nat.add_zero]
    rw [← h1, h, h2]
  · have h1 : (i * n + j) % n = j := by
      rw [Nat.mul_comm i n, Nat.mul_add_mod, Nat.mod_eq_of_lt hj]
    have h2 : (i' * n + j') % n = j' := by
      rw [Nat.mul_comm i' n, Nat.mul_add_mod, Nat.mod_eq_of_lt hj']
    rw [← h1, h, h2]

/-- Extract the source index of a key of one of the region update lists. -/
theorem key_of_regionList {B : ℕ} {pred : ℕ → Bool} {enc : ℕ → ℤ} {val : ℕ → ℚ} {t : ℤ}
    (h : t ∈ (((List.range B).filter pred).map fun a => (enc a, val a)).map Prod.fst) :
    ∃ a, a < B ∧ pred a = true ∧ enc a = t := by
  simp only [List.map_map, List.mem_map, Function.comp] at h
  obtain ⟨a, ha, hat⟩ := h
  have h1 := List.mem_filter.mp ha
  exact ⟨a, List.mem_range.mp h1.1, h1.2, hat⟩

theorem mem_regionList_keys {B : ℕ} {pred : ℕ → Bool} {enc : ℕ → ℤ} {val : ℕ → ℚ} {a : ℕ}
    (ha : a < B) (hp : pred a = true) :
    enc a ∈ (((List.range B).filter pred).map fun b => (enc b, val b)).map Prod.fst := by
  simp only [List.map_map, List.mem_map, Function.comp]
  exact ⟨a, List.mem_filter.mpr ⟨List.mem_range.mpr ha, hp⟩, rfl⟩

theorem regionList_vals_const {B : ℕ} {pred : ℕ → Bool} {enc : ℕ → ℤ} {val : ℕ → ℚ} {c : ℚ}
    (h : ∀ a, a < B → pred a = true → val a = c) :
    ∀ p ∈ ((List.range B).filter pred).map fun b => (enc b, val b), p.2 = c := by
  intro p hp
  simp only [List.mem_map] at hp
  obtain ⟨a, ha, hap⟩ := hp
  have h1 := List.mem_filter.mp ha
  rw [← hap]
  exact h a (List.mem_range.mp h1.1) h1.2

/-! ## C9: terminal state of the orchestrator -/

/-- C9: after the last iteration, `PIVGPU.__call__` returns
`u = field_u / dt` and `v = -field_v / dt` at every node of the final
grid, for every field pair and every nonzero `dt` (the row-axis
component is negated, since the source divides it by `-dt`). -/
theorem pivgpu_terminal_correct (uLast vLast : ℕ → ℚ) (dt : ℚ) (_hdt : dt ≠ 0) (t : ℕ) :
    (pivgpu_terminal uLast vLast dt).1 t = uLast t / dt ∧
    (pivgpu_terminal uLast vLast dt).2 t = -(vLast t / dt) := by
  refine ⟨rfl, ?_⟩
  simp [pivgpu_terminal, div_neg]

theorem pivgpu_terminal_correct_witness :
    (1 : ℚ) ≠ 0 ∧
    ((pivgpu_terminal (fun _ => 3) (fun _ => 5) 1).1 0 = (3 : ℚ) / 1 ∧
     (pivgpu_terminal (fun _ => 3) (fun _ => 5) 1).2 0 = -((5 : ℚ) / 1)) :=
  ⟨by norm_num, pivgpu_terminal_correct (fun _ => 3) (fun _ => 5) 1 (by norm_num) 0⟩

/-! ## C10: the method dispatch of `sig2noise_ratio` -/

/-- C10: for a method argument other than `peak2peak` and `peak2mean`,
`sig2noise_ratio` raises `ValueError` before computing any
signal-to-noise value; for the two recognized methods the dispatch
succeeds (selecting the second peak resp. the map mean as
denominator), so no error arises on account of the method name. -/
theorem sig2noise_dispatch_correct (method : String) (secondPeak mapMean : ℚ)
    (h1 : method ≠ "peak2peak") (h2 : method ≠ "peak2mean") :
    sig2noise_method_choice method secondPeak mapMean
        = Except.error "wrong sig2noise_method" ∧
    sig2noise_method_choice "peak2peak" secondPeak mapMean = Except.ok secondPeak ∧
    sig2noise_method_choice "peak2mean" secondPeak mapMean = Except.ok mapMean := by
  refine ⟨?_, ?_, ?_⟩
  · rw [sig2noise_method_choice, if_neg h1, if_neg h2]
  · rfl
  · rfl

theorem sig2noise_dispatch_correct_witness :
    ("centroid" ≠ "peak2peak" ∧ "centroid" ≠ "peak2mean") ∧
    (sig2noise_method_choice "centroid" 4 7 = Except.error "wrong sig2noise_method" ∧
     sig2noise_method_choice "peak2peak" 4 7 = Except.ok 4 ∧
     sig2noise_method_choice "peak2mean" 4 7 = Except.ok 7) :=
  ⟨⟨by decide, by decide⟩, sig2noise_dispatch_correct "centroid" 4 7 (by decide) (by decide)⟩

/-! ## C5: low-value correlation maps default to the map centre -/

theorem argmaxIdx_lt (corr : ℕ → ℚ) (size : ℕ) (h : 0 < size) :
    argmaxIdx corr size < size := by
  have key : ∀ l : List ℕ, (∀ i ∈ l, i < size) → ∀ b, b < size →
      l.foldl (fun best i => if corr best < corr i then i else best) b < size := by
    intro l
    induction l with
    | nil => exact fun _ b hb => hb
    | cons a rest ih =>
      intro hl b hb
      simp only [List.foldl_cons]
      refine ih (fun i hi => hl i (List.mem_cons_of_mem _ hi)) _ ?_
      split
      · exact hl a (List.mem_cons_self _ _)
      · exact hb
  exact key _ (fun i hi => List.mem_range.mp hi) 0 h

/-- C5: for every correlation map of the window stack whose values are
all below the fixed threshold 0.1 (in particular the maximum is),
`_find_peak` reports the integer-pixel peak at the exact map centre
`row = col = fft_size / 2`, so the integer-pixel residual
`row - fft_size / 2` reported for that window is zero. -/
theorem findPeak_low_max_centre (fftSize : ℕ) (corr : ℕ → ℚ) (hpos : 0 < fftSize)
    (hlow : ∀ i, i < fftSize * fftSize → corr i < 1 / 10) :
    (findPeak fftSize corr).1 = fftSize / 2 ∧
    (findPeak fftSize corr).2.1 = fftSize / 2 ∧
    ((findPeak fftSize corr).1 : ℤ) - ((fftSize / 2 : ℕ) : ℤ) = 0 ∧
    ((findPeak fftSize corr).2.1 : ℤ) - ((fftSize / 2 : ℕ) : ℤ) = 0 := by
  have hm : corr (argmaxIdx corr (fftSize * fftSize)) < 1 / 10 :=
    hlow _ (argmaxIdx_lt _ _ (Nat.mul_pos hpos hpos))
  have hfp : findPeak fftSize corr
      = (fftSize / 2, fftSize / 2, corr (argmaxIdx corr (fftSize * fftSize))) := by
    simp only [findPeak]
    rw [if_pos hm]
  rw [hfp]
  exact ⟨rfl, rfl, by simp, by simp⟩

theorem findPeak_low_max_centre_witness :
    (0 < 4 ∧ ∀ i, i < 4 * 4 → (fun _ : ℕ => (1 : ℚ) / 20) i < 1 / 10) ∧
    ((findPeak 4 (fun _ => 1 / 20)).1 = 4 / 2 ∧
     (findPeak 4 (fun _ => 1 / 20)).2.1 = 4 / 2 ∧
     ((findPeak 4 (fun _ => 1 / 20)).1 : ℤ) - ((4 / 2 : ℕ) : ℤ) = 0 ∧
     ((findPeak 4 (fun _ => 1 / 20)).2.1 : ℤ) - ((4 / 2 : ℕ) : ℤ) = 0) :=
  ⟨⟨by decide, fun i _ => by norm_num⟩,
   findPeak_low_max_centre 4 (fun _ => 1 / 20) (by decide) (fun i _ => by norm_num)⟩

/-! ## C7: the border rule of `sig2noise_ratio` never fires -/

/-- C7: the code intends (per its own comment) to force the
signal-to-noise ratio to zero when the first peak sits on the border of
the correlation map, but the mask it builds multiplies the four
conditions `peak_row == 0`, `peak_row == fft_size`, `peak_col == 0`,
`peak_col == fft_size`, which are jointly unsatisfiable: with
`fft_size = 8`, a first peak at the border corner `(0, 0)` of value 1
and second peak 1/2, the function returns 2, not 0. -/
theorem sig2noise_border_rule_dead :
    sig2noise_one 8 1 0 0 (1 / 2) = 2 ∧
    (∀ fftSize : ℕ, 0 < fftSize →
      ∀ pr pc : ℕ, ¬(pr = 0 ∧ pr = fftSize ∧ pc = 0 ∧ pc = fftSize)) := by
  constructor
  · norm_num [sig2noise_one]
  · rintro fftSize hpos pr pc ⟨h1, h2, -, -⟩
    omega

/-! ## C2: grid geometry -/

/-- C2 counterexample: at image shape 64×64, window size 16 and overlap
ratio 1/4, the standalone `get_field_shape` uses spacing
`ws * r = 4` and returns a 15×15 grid, while `PIVGPU.__init__` uses
spacing `ws - int(ws * r) = 12` and returns a 4×4 grid; the
orchestrator's spacing is not `ws * r`. -/
theorem grid_geometry_cex :
    get_field_shape 64 64 16 (1 / 4) = (15, 15) ∧
    pivgpu_field_shape 64 64 16 (1 / 4) = (4, 4) ∧
    get_field_shape 64 64 16 (1 / 4) ≠ pivgpu_field_shape 64 64 16 (1 / 4) ∧
    (pivgpu_spacing 16 (1 / 4) : ℚ) ≠ (16 : ℚ) * (1 / 4) := by
  have h1 : get_field_shape 64 64 16 (1 / 4) = (15, 15) := by
    simp only [get_field_shape, Prod.mk.injEq]
    norm_num
  have hsp : pivgpu_spacing 16 (1 / 4) = 12 := by
    simp only [pivgpu_spacing, pyInt]
    norm_num
  have h2 : pivgpu_field_shape 64 64 16 (1 / 4) = (4, 4) := by
    simp only [pivgpu_field_shape, hsp, Prod.mk.injEq]
    constructor <;> decide
  refine ⟨h1, h2, by rw [h1, h2]; decide, by rw [hsp]; norm_num⟩

/-- C2 (amended): `get_field_shape` computes `spacing = ws * r` and
`n_row = ⌊(H - spacing) / spacing⌋`, `n_col = ⌊(W - spacing) / spacing⌋`;
the orchestrator instead computes `spacing = ws - int(ws * r)`.  At the
default overlap ratio `r = 1/2` (with `ws` a multiple of 8, so even)
the two spacings coincide at `ws / 2` and both components compute the
same `(n_row, n_col)` for every image shape; for other ratios they
generally differ (see the counterexample). -/
theorem grid_geometry_agree_half (ht wd ws : ℕ) (h8 : ws % 8 = 0) (hge : 8 ≤ ws) :
    (pivgpu_spacing ws (1 / 2) : ℚ) = (ws : ℚ) * (1 / 2) ∧
    get_field_shape ht wd ws (1 / 2) = pivgpu_field_shape ht wd ws (1 / 2) := by
  have h2 : 2 ∣ ws := by omega
  obtain ⟨s, hs⟩ := h2
  have hsp : (ws : ℚ) * (1 / 2) = ((s : ℤ) : ℚ) := by
    subst hs
    push_cast
    ring
  have hpy : pyInt ((ws : ℚ) * (1 / 2)) = (s : ℤ) := by
    rw [hsp, pyInt, if_pos (by positivity), Int.floor_intCast]
  have hspac : pivgpu_spacing ws (1 / 2) = (s : ℤ) := by
    rw [pivgpu_spacing, hpy]
    subst hs
    push_cast
    ring
  have hspos : 0 < s := by omega
  have hkey : ∀ d : ℕ, ⌊(((d : ℚ)) - (ws : ℚ) * (1 / 2)) / ((ws : ℚ) * (1 / 2))⌋
      = Int.fdiv ((d : ℤ) - (s : ℤ)) (s : ℤ) := by
    intro d
    rw [hsp]
    have hcast : ((d : ℚ)) - ((s : ℤ) : ℚ) = (((d : ℤ) - (s : ℤ) : ℤ) : ℚ) := by
      push_cast
      ring
    rw [hcast]
    rw [show (((s : ℤ) : ℚ)) = ((s : ℕ) : ℚ) by push_cast; ring]
    rw [Rat.floor_intCast_div_natCast]
    rw [Int.fdiv_eq_ediv _ (by positivity)]
  constructor
  · rw [hspac, hsp]
  · rw [get_field_shape, pivgpu_field_shape]
    simp only [hspac]
    rw [Prod.mk.injEq]
    exact ⟨hkey ht, hkey wd⟩

theorem grid_geometry_agree_half_witness :
    (16 % 8 = 0 ∧ 8 ≤ 16) ∧
    ((pivgpu_spacing 16 (1 / 2) : ℚ) = (16 : ℚ) * (1 / 2) ∧
     get_field_shape 100 90 16 (1 / 2) = pivgpu_field_shape 100 90 16 (1 / 2)) :=
  ⟨⟨by decide, by decide⟩, grid_geometry_agree_half 100 90 16 (by decide) (by decide)⟩

/-! ## C8: bounds of the dichotomy bracket indices -/

/-- C8 counterexample: with window sizes 32 → 16 at overlap 1/2
(`dxa = 8`, `dxb = 16`), target index 0 on the new grid and a
previous axis of N = 3 nodes, the closed-form guess is
`⌊(8 - 16)/16⌋ = -1`; the kernel then reads `x[-1]` out of bounds to
decide whether `high = low + 1`, and when that read happens to equal
the target coordinate (here: a constant array), the "lower than
lowest" correction zeroes `low` but leaves `high = -1` (it tests the
already-clamped `low`), so the result `(0, -1)` violates
`low ≤ high`. -/
theorem fDichotomy_bounds_cex :
    fDichotomy (fun _ => 0) 0 16 32 8 16 3 5 = (0, -1) ∧
    ¬(0 ≤ (fDichotomy (fun _ => 0) 0 16 32 8 16 3 5).1 ∧
      (fDichotomy (fun _ => 0) 0 16 32 8 16 3 5).1
        ≤ (fDichotomy (fun _ => 0) 0 16 32 8 16 3 5).2 ∧
      (fDichotomy (fun _ => 0) 0 16 32 8 16 3 5).2 ≤ (3 : ℤ) - 1) := by
  have hL : ⌊((16 : ℚ) / 2 - 32 / 2 + ((0 : ℕ) : ℚ) * 8) / 16⌋ = -1 := by norm_num
  have h : fDichotomy (fun _ => 0) 0 16 32 8 16 3 5 = (0, -1) := by
    simp only [fDichotomy, hL]
    norm_num
  refine ⟨h, by rw [h]; decide⟩

/-- C8 (amended): whenever the closed-form initial guess for the lower
bracket index is nonnegative (so the comparison read `x[low]` is not
out of bounds) and the previous grid has at least one node on the
searched axis, the three bound corrections yield in-bounds bracket
indices `0 ≤ low ≤ high ≤ N - 1`.  For a negative initial guess the
correction sequence can return `high = -1 < low` (see the
counterexample). -/
theorem fDichotomy_bounds (rng : ℤ → ℚ) (pos : ℕ) (wa wb dxa dxb : ℚ) (nAxis nMax : ℕ)
    (hN : 1 ≤ nAxis)
    (h0 : 0 ≤ ⌊(wa / 2 - wb / 2 + (pos : ℚ) * dxa) / dxb⌋) :
    0 ≤ (fDichotomy rng pos wa wb dxa dxb nAxis nMax).1 ∧
    (fDichotomy rng pos wa wb dxa dxb nAxis nMax).1
      ≤ (fDichotomy rng pos wa wb dxa dxb nAxis nMax).2 ∧
    (fDichotomy rng pos wa wb dxa dxb nAxis nMax).2 ≤ (nAxis : ℤ) - 1 := by
  have hNz : (1 : ℤ) ≤ (nAxis : ℤ) := by exact_mod_cast hN
  simp only [fDichotomy]
  generalize hL : ⌊(wa / 2 - wb / 2 + (pos : ℚ) * dxa) / dxb⌋ = L at h0 ⊢
  split_ifs <;> refine ⟨by omega, by omega, by omega⟩

theorem fDichotomy_bounds_witness :
    (1 ≤ 3 ∧ 0 ≤ ⌊((16 : ℚ) / 2 - 32 / 2 + ((1 : ℕ) : ℚ) * 8) / 16⌋) ∧
    (0 ≤ (fDichotomy (fun _ => 0) 1 16 32 8 16 3 5).1 ∧
     (fDichotomy (fun _ => 0) 1 16 32 8 16 3 5).1
       ≤ (fDichotomy (fun _ => 0) 1 16 32 8 16 3 5).2 ∧
     (fDichotomy (fun _ => 0) 1 16 32 8 16 3 5).2 ≤ ((3 : ℕ) : ℤ) - 1) :=
  ⟨⟨by decide, by norm_num⟩,
   fDichotomy_bounds (fun _ => 0) 1 16 32 8 16 3 5 (by decide) (by norm_num)⟩

/-! ## Interpolation helper lemmas -/

theorem flat_div {n i j : ℕ} (hj : j < n) : (i * n + j) / n = i := by
  rw [Nat.mul_comm i n, Nat.mul_add_div (Nat.lt_of_le_of_lt (Nat.zero_le _) hj),
    Nat.div_eq_of_lt hj, Nat.add_zero]

theorem flat_mod {n i j : ℕ} (hj : j < n) : (i * n + j) % n = j := by
  rw [Nat.mul_comm i n, Nat.mul_add_mod, Nat.mod_eq_of_lt hj]

theorem interp_keeps_unflagged (c : InterpCtx) (vlist : ℕ → ℕ → Bool)
    (f fnew : ℤ → ℚ) (i j : ℕ) (hj : j < c.n2) (hv : vlist i j = false) :
    interpolate_surroundings c vlist f fnew ((i * c.n2 + j : ℕ) : ℤ)
      = fnew ((i * c.n2 + j : ℕ) : ℤ) := by
  have hn2 : 0 < c.n2 := Nat.lt_of_le_of_lt (Nat.zero_le _) hj
  simp only [interpolate_surroundings]
  set t0 : ℤ := ((i * c.n2 + j : ℕ) : ℤ) with ht0
  have hdecode : ∀ i' j' : ℕ, j' < c.n2 → t0 = ((i' * c.n2 + j' : ℕ) : ℤ) →
      i = i' ∧ j = j' := by
    intro i' j' hj' hval
    exact flat_decode hj hj' (Nat.cast_inj.mp hval)
  -- corner (m2-1, n2-1)
  rw [guardUpd_miss _ _ _ _ _ ?c9]
  case c9 =>
    by_cases hk : t0 = (((c.m2 - 1) * c.n2 + (c.n2 - 1) : ℕ) : ℤ)
    · obtain ⟨hie, hje⟩ := hdecode _ _ (Nat.sub_lt hn2 one_pos) hk
      rw [hie, hje] at hv
      exact Or.inl hv
    · exact Or.inr hk
  -- corner (m2-1, 0)
  rw [guardUpd_miss _ _ _ _ _ ?c8]
  case c8 =>
    by_cases hk : t0 = (((c.m2 - 1) * c.n2 : ℕ) : ℤ)
    · obtain ⟨hie, hje⟩ := hdecode (c.m2 - 1) 0 hn2 (by rw [hk]; norm_num)
      rw [hie, hje] at hv
      exact Or.inl hv
    · exact Or.inr hk
  -- corner (0, n2-1)
  rw [guardUpd_miss _ _ _ _ _ ?c7]
  case c7 =>
    by_cases hk : t0 = ((c.n2 - 1 : ℕ) : ℤ)
    · obtain ⟨hie, hje⟩ := hdecode 0 (c.n2 - 1) (Nat.sub_lt hn2 one_pos) (by rw [hk]; norm_num)
      rw [hie, hje] at hv
      exact Or.inl hv
    · exact Or.inr hk
  -- corner (0, 0)
  rw [guardUpd_miss _ _ _ _ _ ?c6]
  case c6 =>
    by_cases hk : t0 = (((0 : ℕ)) : ℤ)
    · obtain ⟨hie, hje⟩ := hdecode 0 0 hn2 (by rw [hk]; norm_num)
      rw [hie, hje] at hv
      exact Or.inl hv
    · exact Or.inr hk
  -- right edge
  rw [updList_not_mem _ _ _ ?c5]
  case c5 =>
    intro hm
    simp only [rightInd] at hm
    obtain ⟨a, ha, hp, he⟩ := key_of_regionList hm
    obtain ⟨hie, hje⟩ := hdecode a (c.n2 - 1) (Nat.sub_lt hn2 one_pos) he.symm
    simp only [Bool.and_eq_true, Bool.not_eq_true', decide_eq_false_iff_not] at hp
    have hvt := hp.1.1
    rw [← hie, ← hje] at hvt
    rw [hv] at hvt
    exact Bool.noConfusion hvt
  -- left edge
  rw [updList_not_mem _ _ _ ?c4]
  case c4 =>
    intro hm
    simp only [leftInd] at hm
    obtain ⟨a, ha, hp, he⟩ := key_of_regionList hm
    obtain ⟨hie, hje⟩ := hdecode a 0 hn2 (by rw [← he]; norm_num)
    simp only [Bool.and_eq_true, Bool.not_eq_true', decide_eq_false_iff_not] at hp
    have hvt := hp.1.1
    rw [← hie, ← hje] at hvt
    rw [hv] at hvt
    exact Bool.noConfusion hvt
  -- bottom edge
  rw [updList_not_mem _ _ _ ?c3]
  case c3 =>
    intro hm
    simp only [bottomInd] at hm
    obtain ⟨a, ha, hp, he⟩ := key_of_regionList hm
    obtain ⟨hie, hje⟩ := hdecode (c.m2 - 1) a (List.mem_range.mp (List.mem_range.mpr ha)) he.symm
    simp only [Bool.and_eq_true, Bool.not_eq_true', decide_eq_false_iff_not] at hp
    have hvt := hp.1.1
    rw [← hie, ← hje] at hvt
    rw [hv] at hvt
    exact Bool.noConfusion hvt
  -- top edge
  rw [updList_not_mem _ _ _ ?c2]
  case c2 =>
    intro hm
    simp only [topInd] at hm
    obtain ⟨a, ha, hp, he⟩ := key_of_regionList hm
    obtain ⟨hie, hje⟩ := hdecode 0 a ha (by rw [← he]; norm_num)
    simp only [Bool.and_eq_true, Bool.not_eq_true', decide_eq_false_iff_not] at hp
    have hvt := hp.1.1
    rw [← hie, ← hje] at hvt
    rw [hv] at hvt
    exact Bool.noConfusion hvt
  -- interior
  rw [updList_not_mem _ _ _ ?c1]
  case c1 =>
    intro hm
    simp only [interiorInd] at hm
    obtain ⟨a, ha, hp, he⟩ := key_of_regionList hm
    have hae : a = i * c.n2 + j := Nat.cast_inj.mp he
    simp only [Bool.and_eq_true, Bool.not_eq_true', decide_eq_false_iff_not] at hp
    have hpa := hp.1.1.1.1
    rw [hae, flat_div hj, flat_mod hj, hv] at hpa
    exact Bool.noConfusion hpa

theorem replaceByField_unflagged (m n : ℕ) (flagged : ℕ → Bool) (src dest : ℤ → ℚ)
    (t : ℕ) (h : flagged t = false) :
    replaceByField m n flagged src dest (t : ℤ) = dest (t : ℤ) := by
  apply updList_not_mem
  intro hm
  obtain ⟨a, ha, hp, he⟩ := key_of_regionList hm
  rw [Nat.cast_inj.mp he, h] at hp
  exact Bool.noConfusion hp

/-- C3: for every validation mask, every velocity-field pair `(u, v)`,
and every iteration case of `gpu_replace_vectors` (first iteration,
later iteration with the same grid shape, later iteration with a
different grid shape), the replacement leaves `u` and `v` unchanged at
every grid node whose mask entry is nonzero (i.e. not flagged for
replacement after the `np.invert` of `val_list`); only flagged nodes
receive new values. -/
theorem replace_vectors_keeps_unflagged (k : ℕ) (c : InterpCtx)
    (u v uprev vprev umean vmean : ℤ → ℚ) (valList : ℕ → ℤ) (i j : ℕ)
    (_hi : i < c.m2) (hj : j < c.n2) (hflag : valList (i * c.n2 + j) ≠ 0) :
    (gpu_replace_vectors k c u v uprev vprev umean vmean valList).1 ((i * c.n2 + j : ℕ) : ℤ)
      = u ((i * c.n2 + j : ℕ) : ℤ) ∧
    (gpu_replace_vectors k c u v uprev vprev umean vmean valList).2 ((i * c.n2 + j : ℕ) : ℤ)
      = v ((i * c.n2 + j : ℕ) : ℤ) := by
  have hdec : decide (valList (i * c.n2 + j) = 0) = false := decide_eq_false hflag
  simp only [gpu_replace_vectors]
  split_ifs with hk hs
  · exact ⟨replaceByField_unflagged _ _ _ _ _ _ hdec,
      replaceByField_unflagged _ _ _ _ _ _ hdec⟩
  · exact ⟨interp_keeps_unflagged c (fun a b => decide (valList (a * c.n2 + b) = 0)) uprev u i j hj hdec,
      interp_keeps_unflagged c (fun a b => decide (valList (a * c.n2 + b) = 0)) vprev v i j hj hdec⟩
  · exact ⟨replaceByField_unflagged _ _ _ _ _ _ hdec,
      replaceByField_unflagged _ _ _ _ _ _ hdec⟩

theorem replace_vectors_keeps_unflagged_witness :
    (1 < smallCtx.m2 ∧ 1 < smallCtx.n2 ∧ (fun _ : ℕ => (1 : ℤ)) (1 * smallCtx.n2 + 1) ≠ 0) ∧
    ((gpu_replace_vectors 1 smallCtx (fun _ => 2) (fun _ => 3) (fun _ => 4) (fun _ => 5)
        (fun _ => 6) (fun _ => 7) (fun _ => 1)).1 ((1 * smallCtx.n2 + 1 : ℕ) : ℤ)
      = (fun _ : ℤ => (2 : ℚ)) ((1 * smallCtx.n2 + 1 : ℕ) : ℤ) ∧
     (gpu_replace_vectors 1 smallCtx (fun _ => 2) (fun _ => 3) (fun _ => 4) (fun _ => 5)
        (fun _ => 6) (fun _ => 7) (fun _ => 1)).2 ((1 * smallCtx.n2 + 1 : ℕ) : ℤ)
      = (fun _ : ℤ => (3 : ℚ)) ((1 * smallCtx.n2 + 1 : ℕ) : ℤ)) :=
  ⟨⟨by decide, by decide, by decide⟩,
   replace_vectors_keeps_unflagged 1 smallCtx (fun _ => 2) (fun _ => 3) (fun _ => 4)
     (fun _ => 5) (fun _ => 6) (fun _ => 7) (fun _ => 1) 1 1 (by decide) (by decide) (by decide)⟩

/-! ## C4: interpolating a constant field reproduces the constant -/

theorem updList_filter_const {B : ℕ} {pred : ℕ → Bool} {enc : ℕ → ℤ} {val : ℕ → ℚ} {cst : ℚ}
    (s : ℤ → ℚ) (hval : ∀ a, a < B → pred a = true → val a = cst)
    {a : ℕ} (ha : a < B) (hp : pred a = true) :
    updList s (((List.range B).filter pred).map fun b => (enc b, val b)) (enc a) = cst :=
  updList_mem_const _ _ _ _ (regionList_vals_const hval) (mem_regionList_keys ha hp)

theorem mul_ind_eq_one (x : ℤ) (p : Prop) [Decidable p] :
    x * (if p then (1 : ℤ) else 0) = 1 ↔ (x = 1 ∧ p) := by
  by_cases hp : p <;> simp [hp]

theorem mul_ind_mem (x : ℤ) (p : Prop) [Decidable p] (hx : x = 0 ∨ x = 1) :
    x * (if p then (1 : ℤ) else 0) = 0 ∨ x * (if p then (1 : ℤ) else 0) = 1 := by
  rcases hx with h | h <;> by_cases hp : p <;> simp [h, hp]

theorem neighbourValidation_some_eq_one (g : ℕ → ℤ) (f fm fl : ℕ → ℚ) (tol : ℚ) (t : ℕ) :
    neighbourValidation (some g) f fm fl tol t = 1
      ↔ g t = 1 ∧ |f t - fm t| / (fl t + 1 / 10) < tol :=
  mul_ind_eq_one _ _

theorem neighbourValidation_none_eq_one (f fm fl : ℕ → ℚ) (tol : ℚ) (t : ℕ) :
    neighbourValidation none f fm fl tol t = 1 ↔ |f t - fm t| / (fl t + 1 / 10) < tol := by
  rw [show neighbourValidation none f fm fl tol t
      = 1 * (if |f t - fm t| / (fl t + 1 / 10) < tol then 1 else 0) from rfl,
    mul_ind_eq_one]
  simp

theorem neighbourValidation_some_mem (g : ℕ → ℤ) (f fm fl : ℕ → ℚ) (tol : ℚ) (t : ℕ)
    (hg : g t = 0 ∨ g t = 1) :
    neighbourValidation (some g) f fm fl tol t = 0
      ∨ neighbourValidation (some g) f fm fl tol t = 1 :=
  mul_ind_mem _ _ hg

theorem neighbourValidation_none_mem (f fm fl : ℕ → ℚ) (tol : ℚ) (t : ℕ) :
    neighbourValidation none f fm fl tol t = 0 ∨ neighbourValidation none f fm fl tol t = 1 :=
  mul_ind_mem _ _ (Or.inr rfl)

theorem replaceByField_flagged (m n : ℕ) (flagged : ℕ → Bool) (src dest : ℤ → ℚ)
    (t : ℕ) (ht : t < m * n) (h : flagged t = true) :
    replaceByField m n flagged src dest (t : ℤ) = src (t : ℤ) := by
  apply updList_mem_nodup
  · rw [List.map_map]
    have : (Prod.fst ∘ fun (a : ℕ) => ((a : ℤ), src (a : ℤ)))
        = fun (a : ℕ) => (a : ℤ) := rfl
    rw [this]
    exact ((List.nodup_range _).filter _).map Nat.cast_injective
  · simp only [List.mem_map]
    exact ⟨t, List.mem_filter.mpr ⟨List.mem_range.mpr ht, h⟩, rfl⟩

theorem replace_exactly_flagged (m n : ℕ) (val : ℕ → ℤ) (src dest : ℤ → ℚ) (t : ℕ) :
    (val t ≠ 0 → replaceByField m n (fun a => decide (val a = 0)) src dest (t : ℤ)
      = dest (t : ℤ)) ∧
    (val t = 0 → t < m * n → replaceByField m n (fun a => decide (val a = 0)) src dest (t : ℤ)
      = src (t : ℤ)) :=
  ⟨fun h => replaceByField_unflagged _ _ _ _ _ _ (decide_eq_false h),
   fun h ht => replaceByField_flagged _ _ _ _ _ _ ht (decide_eq_true h)⟩

/-! ## C1: correctness of the 8-element median sorting network -/

theorem slot_le_iff (a b : Slot) : a ≤ b ↔ slotKey a ≤ slotKey b := Iff.rfl

theorem present_of_le (a b : Slot) (hab : a ≤ b) (hb : b.present = true) :
    a.present = true := by
  have h : slotKey a ≤ slotKey b := hab
  rw [slotKey, slotKey, Prod.Lex.le_iff] at h
  rcases h with h | h
  · rw [hb] at h
    simp [Bool.lt_iff] at h
  · rw [hb] at h
    simpa using h.1

theorem slot_val_le_of_le (a b : Slot) (hab : a ≤ b) (ha : a.present = true)
    (hb : b.present = true) : a.val ≤ b.val := by
  have h : slotKey a ≤ slotKey b := hab
  rw [slotKey, slotKey, Prod.Lex.le_iff] at h
  rcases h with h | h
  · rw [ha, hb] at h
    simp [Bool.lt_iff] at h
  · exact h.2

theorem cswap_minmax {α : Type} [LinearOrder α] (x : Fin 8 → α) (p : Fin 8 × Fin 8)
    (i : Fin 8) :
    cswap x p i = if i = p.1 then min (x p.1) (x p.2)
      else if i = p.2 then max (x p.1) (x p.2) else x i := by
  unfold cswap
  rcases lt_or_ge (x p.2) (x p.1) with h | h
  · rw [if_pos h]
    by_cases h1 : i = p.1
    · rw [if_pos h1, if_pos h1, min_eq_right h.le]
    · rw [if_neg h1, if_neg h1]
      by_cases h2 : i = p.2
      · rw [if_pos h2, if_pos h2, max_eq_left h.le]
      · rw [if_neg h2, if_neg h2]
  · rw [if_neg (not_lt.mpr h)]
    by_cases h1 : i = p.1
    · rw [if_pos h1, min_eq_left h]
      rw [h1]
    · rw [if_neg h1]
      by_cases h2 : i = p.2
      · rw [if_pos h2, max_eq_right h]
        rw [h2]
      · rw [if_neg h2]

theorem cswap_map {α β : Type} [LinearOrder α] [LinearOrder β] (f : α → β)
    (hf : Monotone f) (x : Fin 8 → α) (p : Fin 8 × Fin 8) :
    (fun i => f (cswap x p i)) = cswap (fun i => f (x i)) p := by
  funext i
  rw [cswap_minmax, cswap_minmax]
  by_cases h1 : i = p.1
  · rw [if_pos h1, if_pos h1, hf.map_min]
  · rw [if_neg h1, if_neg h1]
    by_cases h2 : i = p.2
    · rw [if_pos h2, if_pos h2, hf.map_max]
    · rw [if_neg h2, if_neg h2]

theorem foldl_cswap_map {α β : Type} [LinearOrder α] [LinearOrder β] (f : α → β)
    (hf : Monotone f) (l : List (Fin 8 × Fin 8)) (x : Fin 8 → α) :
    (fun i => f (l.foldl cswap x i)) = l.foldl cswap (fun i => f (x i)) := by
  induction l generalizing x with
  | nil => rfl
  | cons p rest ih =>
    rw [List.foldl_cons, List.foldl_cons, ih (cswap x p), cswap_map f hf]

theorem runNet_map {α β : Type} [LinearOrder α] [LinearOrder β] (f : α → β)
    (hf : Monotone f) (x : Fin 8 → α) :
    (fun i => f (runNet x i)) = runNet (fun i => f (x i)) :=
  foldl_cswap_map f hf net8 x

theorem bool_net_sorted :
    ∀ b : Fin 8 → Bool, ∀ i j : Fin 8, i ≤ j → runNet b i ≤ runNet b j := by decide

theorem runNet_sorted {α : Type} [LinearOrder α] (x : Fin 8 → α) (i j : Fin 8)
    (hij : i ≤ j) : runNet x i ≤ runNet x j := by
  by_contra hc
  push_neg at hc
  have hf : Monotone (fun a : α => decide (runNet x i ≤ a)) := by
    intro a b hab
    by_cases h : runNet x i ≤ a
    · simp [h, h.trans hab]
    · simp [h]
  have hcomm := runNet_map (fun a : α => decide (runNet x i ≤ a)) hf x
  have hb := bool_net_sorted (fun k => decide (runNet x i ≤ x k)) i j hij
  have e1 : decide (runNet x i ≤ runNet x i)
      = runNet (fun k => decide (runNet x i ≤ x k)) i := congrFun hcomm i
  have e2 : decide (runNet x i ≤ runNet x j)
      = runNet (fun k => decide (runNet x i ≤ x k)) j := congrFun hcomm j
  have hb' : decide (runNet x i ≤ runNet x i) ≤ decide (runNet x i ≤ runNet x j) := by
    rw [e1, e2]; exact hb
  rw [decide_eq_true (le_refl (runNet x i)), decide_eq_false (not_le.mpr hc)] at hb'
  exact absurd hb' (by decide)

theorem cswap_perm {α : Type} [LinearOrder α] (x : Fin 8 → α) (p : Fin 8 × Fin 8) :
    ∃ σ : Equiv.Perm (Fin 8), cswap x p = x ∘ ⇑σ := by
  unfold cswap
  split_ifs with h
  · refine ⟨Equiv.swap p.1 p.2, ?_⟩
    funext i
    simp only [Function.comp_apply]
    by_cases h1 : i = p.1
    · subst h1; rw [if_pos rfl, Equiv.swap_apply_left]
    · rw [if_neg h1]
      by_cases h2 : i = p.2
      · subst h2; rw [if_pos rfl, Equiv.swap_apply_right]
      · rw [if_neg h2, Equiv.swap_apply_of_ne_of_ne h1 h2]
  · exact ⟨Equiv.refl _, rfl⟩

theorem foldl_cswap_perm {α : Type} [LinearOrder α] (l : List (Fin 8 × Fin 8))
    (x : Fin 8 → α) : ∃ σ : Equiv.Perm (Fin 8), l.foldl cswap x = x ∘ ⇑σ := by
  induction l generalizing x with
  | nil => exact ⟨Equiv.refl _, rfl⟩
  | cons p rest ih =>
    obtain ⟨σ₁, h₁⟩ := ih (cswap x p)
    obtain ⟨σ₂, h₂⟩ := cswap_perm x p
    refine ⟨σ₁.trans σ₂, ?_⟩
    rw [List.foldl_cons, h₁, h₂]
    rfl

theorem runNet_perm {α : Type} [LinearOrder α] (x : Fin 8 → α) :
    ∃ σ : Equiv.Perm (Fin 8), runNet x = x ∘ ⇑σ :=
  foldl_cswap_perm net8 x

theorem sorted_filter_eq_take (L : List Slot) (hs : L.Pairwise (· ≤ ·)) :
    L.filter (fun c => c.present) = L.take (L.countP (fun c => c.present)) := by
  induction L with
  | nil => rfl
  | cons a l ih =>
    rw [List.pairwise_cons] at hs
    by_cases ha : a.present = true
    · rw [List.filter_cons_of_pos (by simpa using ha),
        List.countP_cons_of_pos _ _ (by simpa using ha), List.take_succ_cons, ih hs.2]
    · have hnone : ∀ b ∈ l, ¬ b.present = true := fun b hb hbp =>
        ha (present_of_le a b (hs.1 b hb) hbp)
      have h0 : l.countP (fun c => c.present) = 0 := by
        rw [List.countP_eq_zero]
        intro b hb
        simpa using hnone b hb
      have hfil : l.filter (fun c => c.present) = [] := by
        rw [List.filter_eq_nil_iff]
        intro b hb
        simpa using hnone b hb
      rw [List.filter_cons_of_neg (by simpa using ha),
        List.countP_cons_of_neg _ _ (by simpa using ha), hfil, h0, List.take_zero]

/-- C1: for every assignment of the 8 neighbour slots with at least one
slot present, the median computed by the sorting-network kernels equals
the sort-and-pick reference median of exactly the present values. -/
theorem median_network_correct (s : Fin 8 → Slot) (hs : ∃ i, (s i).present = true) :
    medianNetwork s = medianRef (presentVals s) := by
  obtain ⟨i0, hi0⟩ := hs
  obtain ⟨σ, hσ⟩ := runNet_perm s
  have hperm : ((List.finRange 8).map (runNet s)).Perm ((List.finRange 8).map s) := by
    rw [hσ, ← List.map_map]
    refine List.Perm.map s ?_
    refine (List.perm_ext_iff_of_nodup ((List.nodup_finRange 8).map σ.injective)
      (List.nodup_finRange 8)).mpr ?_
    intro a
    simp only [List.mem_map]
    exact ⟨fun _ => List.mem_finRange a,
      fun _ => ⟨σ.symm a, List.mem_finRange _, σ.apply_symm_apply a⟩⟩
  have hLsorted : ((List.finRange 8).map (runNet s)).Pairwise (· ≤ ·) := by
    rw [List.pairwise_map, List.pairwise_iff_get]
    intro i j hij
    rw [List.get_finRange, List.get_finRange]
    exact runNet_sorted s _ _ (by exact_mod_cast hij.le)
  have hfs : (((List.finRange 8).map (runNet s)).filter (fun c => c.present)).Pairwise
      (· ≤ ·) := hLsorted.filter _
  have hallp : ∀ a ∈ ((List.finRange 8).map (runNet s)).filter (fun c => c.present),
      a.present = true := fun a ha => by simpa using (List.mem_filter.mp ha).2
  have hvs : ((((List.finRange 8).map (runNet s)).filter (fun c => c.present)).map
      Slot.val).Pairwise (· ≤ ·) := by
    rw [List.pairwise_map]
    exact hfs.imp_of_mem (fun {a b} ha hb hab =>
      slot_val_le_of_le a b hab (hallp a ha) (hallp b hb))
  have hvperm : ((((List.finRange 8).map (runNet s)).filter (fun c => c.present)).map
      Slot.val).Perm (presentVals s) := (hperm.filter _).map Slot.val
  have hms : (presentVals s).mergeSort (fun a b => decide (a ≤ b))
      = (((List.finRange 8).map (runNet s)).filter (fun c => c.present)).map Slot.val := by
    refine List.eq_of_perm_of_sorted ((List.mergeSort_perm _ _).trans hvperm.symm) ?_ hvs
    exact List.sorted_mergeSort' _
  have hNdef : presentCount (runNet s)
      = ((List.finRange 8).map (runNet s)).countP (fun c => c.present) := rfl
  have hN8 : presentCount (runNet s) ≤ 8 := by
    rw [hNdef]
    calc ((List.finRange 8).map (runNet s)).countP (fun c => c.present)
        ≤ ((List.finRange 8).map (runNet s)).length := List.countP_le_length _
      _ = 8 := by simp
  have hN1 : 1 ≤ presentCount (runNet s) := by
    rw [hNdef, hperm.countP_eq]
    refine List.countP_pos_iff.mpr ⟨s i0, List.mem_map.mpr ⟨i0, List.mem_finRange _, rfl⟩, ?_⟩
    simpa using hi0
  have hlen : (presentVals s).length = presentCount (runNet s) := by
    rw [presentVals, List.length_map, ← List.countP_eq_length_filter, hNdef,
      hperm.countP_eq]
  have hval : ∀ k, k < presentCount (runNet s) → valAt (runNet s) k
      = ((presentVals s).mergeSort (fun a b => decide (a ≤ b))).getD k 0 := by
    intro k hk
    have hk8 : k < 8 := lt_of_lt_of_le hk hN8
    have hkf : k < ((((List.finRange 8).map (runNet s)).filter
        (fun c => c.present)).map Slot.val).length := by
      rw [List.length_map, ← List.countP_eq_length_filter, ← hNdef]
      exact hk
    rw [hms, List.getD_eq_getElem _ _ hkf, List.getElem_map]
    rw [List.getElem_of_eq (sorted_filter_eq_take _ hLsorted) (by simpa using hkf),
      List.getElem_take, List.getElem_map, List.getElem_finRange]
    rw [valAt, dif_pos hk8]
    rfl
  simp only [medianNetwork, medianRef]
  rw [hlen]
  split_ifs with hpar
  · rw [hval _ (by omega), hval _ (by omega)]
  · rw [hval _ (by omega)]

theorem median_network_correct_witness :
    (∃ i, ((fun i => Slot.mk (![3, 1, 4, 1, 5, 9, 2, 6] i)
        (![true, true, false, true, false, true, true, false] i)) i).present = true) ∧
    medianNetwork (fun i => Slot.mk (![3, 1, 4, 1, 5, 9, 2, 6] i)
        (![true, true, false, true, false, true, true, false] i))
      = medianRef (presentVals (fun i => Slot.mk (![3, 1, 4, 1, 5, 9, 2, 6] i)
        (![true, true, false, true, false, true, true, false] i))) :=
  ⟨⟨0, rfl⟩, median_network_correct _ ⟨0, rfl⟩⟩

/-! ## C6: polarity of the validation mask (continued) -/

theorem neighbourVal_zero (m n w q : ℕ) :
    neighbourVal m n (fun _ => 0) w q = 0 := by
  rw [neighbourVal]
  split_ifs <;> rfl

theorem medianNetwork_const_zero (s : Fin 8 → Slot) (h : ∀ i, (s i).val = 0) :
    medianNetwork s = 0 := by
  obtain ⟨σ, hσ⟩ := runNet_perm s
  have hv : ∀ k, valAt (runNet s) k = 0 := by
    intro k
    rw [valAt]
    split_ifs with hk
    · rw [hσ]
      exact h (σ ⟨k, hk⟩)
    · rfl
  simp only [medianNetwork]
  split_ifs with hp
  · rw [hv, hv]
    norm_num
  · exact hv _

theorem medianVel_zero (m n w : ℕ) : medianVel m n (fun _ => 0) w = 0 :=
  medianNetwork_const_zero _ (fun i => neighbourVal_zero m n w (qIdx i))

theorem medianFluc_zero (m n w : ℕ) : medianFluc m n (fun _ => 0) w = 0 := by
  refine medianNetwork_const_zero _ (fun i => ?_)
  show |neighbourVal m n (fun _ => 0) w (qIdx i) - medianVel m n (fun _ => 0) w| = 0
  rw [neighbourVal_zero, medianVel_zero]
  norm_num

/-- C6 (amended): the polarity of the mask `val_list` returned by
`gpu_validation` is the inverse of the claim's reading: an entry of
**1** marks an accepted node (one passing every enabled criterion) and
**0** marks a node that needs correction; consistently, the replacement
stage (which inverts the list with `np.invert`) rewrites exactly the
0-entries and leaves every nonzero entry's node untouched.  This holds
for every input field and every enabled combination of the
median/mean/rms criteria.  Enabling the s2n criterion instead makes
`gpu_validation` raise before any list is returned, because
`_local_validation` fetches its kernel under the wrong name, so no mask
at all is produced on that path. -/
theorem validation_mask_polarity (m n : ℕ) (u v : ℤ → ℚ) (s2n urms vrms : ℕ → ℚ)
    (cfg : ValCfg) (src dest : ℤ → ℚ)
    (hen : cfg.useS2n = true ∨ cfg.useMedian = true ∨ cfg.useMean = true
      ∨ cfg.useRms = true) :
    (cfg.useS2n = true → ∃ e, gpu_validation_val m n u v s2n urms vrms cfg
        = Except.error e) ∧
    (cfg.useS2n = false →
      ∃ val : ℕ → ℤ, gpu_validation_val m n u v s2n urms vrms cfg
          = Except.ok (some val) ∧
        ∀ t : ℕ,
          (val t = 0 ∨ val t = 1) ∧
          (val t = 1 ↔
            ((cfg.useMedian = true →
               medianPass m n u cfg.medianTol t ∧ medianPass m n v cfg.medianTol t) ∧
             (cfg.useMean = true →
               meanPass m n u cfg.meanTol t ∧ meanPass m n v cfg.meanTol t) ∧
             (cfg.useRms = true →
               rmsPass m n u urms cfg.rmsTol t ∧ rmsPass m n v vrms cfg.rmsTol t))) ∧
          (val t ≠ 0 → replaceByField m n (fun a => decide (val a = 0)) src dest (t : ℤ)
            = dest (t : ℤ)) ∧
          (val t = 0 → t < m * n →
            replaceByField m n (fun a => decide (val a = 0)) src dest (t : ℤ)
              = src (t : ℤ))) := by
  rcases cfg with ⟨s2nb, medb, meanb, rmsb, st, mt, met, rt⟩
  cases s2nb
  · refine ⟨fun h => by simp at h, fun _ => ?_⟩
    cases medb <;> cases meanb <;> cases rmsb
    case false.false.false => simp at hen
    all_goals refine ⟨_, rfl, fun t => ⟨?_, ?_,
      (replace_exactly_flagged m n _ src dest t).1,
      (replace_exactly_flagged m n _ src dest t).2⟩⟩
    · exact neighbourValidation_some_mem _ _ _ _ _ _
        (neighbourValidation_none_mem _ _ _ _ _)
    · simp only [Bool.false_eq_true, if_false, if_true,
        neighbourValidation_some_eq_one, neighbourValidation_none_eq_one,
        medianPass, meanPass, rmsPass]
      constructor
      · intro h
        simp_all
      · intro h
        simp_all
    · exact neighbourValidation_some_mem _ _ _ _ _ _
        (neighbourValidation_none_mem _ _ _ _ _)
    · simp only [Bool.false_eq_true, if_false, if_true,
        neighbourValidation_some_eq_one, neighbourValidation_none_eq_one,
        medianPass, meanPass, rmsPass]
      constructor
      · intro h
        simp_all
      · intro h
        simp_all
    · exact neighbourValidation_some_mem _ _ _ _ _ _
        (neighbourValidation_some_mem _ _ _ _ _ _
        (neighbourValidation_some_mem _ _ _ _ _ _
        (neighbourValidation_none_mem _ _ _ _ _)))
    · simp only [Bool.false_eq_true, if_false, if_true,
        neighbourValidation_some_eq_one, neighbourValidation_none_eq_one,
        medianPass, meanPass, rmsPass]
      constructor
      · intro h
        simp_all
      · intro h
        simp_all
    · exact neighbourValidation_some_mem _ _ _ _ _ _
        (neighbourValidation_none_mem _ _ _ _ _)
    · simp only [Bool.false_eq_true, if_false, if_true,
        neighbourValidation_some_eq_one, neighbourValidation_none_eq_one,
        medianPass, meanPass, rmsPass]
      constructor
      · intro h
        simp_all
      · intro h
        simp_all
    · exact neighbourValidation_some_mem _ _ _ _ _ _
        (neighbourValidation_some_mem _ _ _ _ _ _
        (neighbourValidation_some_mem _ _ _ _ _ _
        (neighbourValidation_none_mem _ _ _ _ _)))
    · simp only [Bool.false_eq_true, if_false, if_true,
        neighbourValidation_some_eq_one, neighbourValidation_none_eq_one,
        medianPass, meanPass, rmsPass]
      constructor
      · intro h
        simp_all
      · intro h
        simp_all
    · exact neighbourValidation_some_mem _ _ _ _ _ _
        (neighbourValidation_some_mem _ _ _ _ _ _
        (neighbourValidation_some_mem _ _ _ _ _ _
        (neighbourValidation_none_mem _ _ _ _ _)))
    · simp only [Bool.false_eq_true, if_false, if_true,
        neighbourValidation_some_eq_one, neighbourValidation_none_eq_one,
        medianPass, meanPass, rmsPass]
      constructor
      · intro h
        simp_all
      · intro h
        simp_all
    · exact neighbourValidation_some_mem _ _ _ _ _ _
        (neighbourValidation_some_mem _ _ _ _ _ _
        (neighbourValidation_some_mem _ _ _ _ _ _
        (neighbourValidation_some_mem _ _ _ _ _ _
        (neighbourValidation_some_mem _ _ _ _ _ _
        (neighbourValidation_none_mem _ _ _ _ _)))))
    · simp only [Bool.false_eq_true, if_false, if_true,
        neighbourValidation_some_eq_one, neighbourValidation_none_eq_one,
        medianPass, meanPass, rmsPass]
      constructor
      · intro h
        simp_all
      · intro h
        simp_all
  · exact ⟨fun _ => ⟨"cuModuleGetFunction failed: named symbol not found", rfl⟩,
      fun h => by simp at h⟩

theorem validation_mask_polarity_witness :
    (medianOnlyCfg.useS2n = true ∨ medianOnlyCfg.useMedian = true
      ∨ medianOnlyCfg.useMean = true ∨ medianOnlyCfg.useRms = true) ∧
    ((medianOnlyCfg.useS2n = true → ∃ e, gpu_validation_val 1 2 (fun _ => 0) (fun _ => 0)
        (fun _ => 0) (fun _ => 0) (fun _ => 0) medianOnlyCfg = Except.error e) ∧
     (medianOnlyCfg.useS2n = false →
       ∃ val : ℕ → ℤ, gpu_validation_val 1 2 (fun _ => 0) (fun _ => 0) (fun _ => 0)
           (fun _ => 0) (fun _ => 0) medianOnlyCfg = Except.ok (some val) ∧
         ∀ t : ℕ,
           (val t = 0 ∨ val t = 1) ∧
           (val t = 1 ↔
             ((medianOnlyCfg.useMedian = true →
                medianPass 1 2 (fun _ => 0) medianOnlyCfg.medianTol t ∧
                medianPass 1 2 (fun _ => 0) medianOnlyCfg.medianTol t) ∧
              (medianOnlyCfg.useMean = true →
                meanPass 1 2 (fun _ => 0) medianOnlyCfg.meanTol t ∧
                meanPass 1 2 (fun _ => 0) medianOnlyCfg.meanTol t) ∧
              (medianOnlyCfg.useRms = true →
                rmsPass 1 2 (fun _ => 0) (fun _ => 0) medianOnlyCfg.rmsTol t ∧
                rmsPass 1 2 (fun _ => 0) (fun _ => 0) medianOnlyCfg.rmsTol t))) ∧
           (val t ≠ 0 → replaceByField 1 2 (fun a => decide (val a = 0)) (fun _ => 5)
             (fun _ => 0) (t : ℤ) = (fun _ : ℤ => (0 : ℚ)) (t : ℤ)) ∧
           (val t = 0 → t < 1 * 2 →
             replaceByField 1 2 (fun a => decide (val a = 0)) (fun _ => 5)
               (fun _ => 0) (t : ℤ) = (fun _ : ℤ => (5 : ℚ)) (t : ℤ)))) :=
  ⟨Or.inr (Or.inl rfl),
   validation_mask_polarity 1 2 (fun _ => 0) (fun _ => 0) (fun _ => 0) (fun _ => 0)
     (fun _ => 0) medianOnlyCfg (fun _ => 5) (fun _ => 0) (Or.inr (Or.inl rfl))⟩

/-- C6 counterexample: under the default median-only validation on a
uniform-zero 1×2 field, node 0 plainly passes the (only) enabled
criterion — its median deviation ratio is 0/(0+0.1), below the
tolerance 2 — yet its mask entry is **1**, and the replacement stage
leaves its value unchanged (0 instead of the replacement source's 5).
So an entry of 1 marks an accepted node, not one that needs correction
as the claim states. -/
theorem validation_mask_polarity_cex :
    gpu_validation_val 1 2 (fun _ => 0) (fun _ => 0) (fun _ => 0) (fun _ => 0)
        (fun _ => 0) medianOnlyCfg = Except.ok (some medianOnlyVal) ∧
    medianPass 1 2 (fun _ => 0) medianOnlyCfg.medianTol 0 ∧
    medianOnlyVal 0 = 1 ∧
    replaceByField 1 2 (fun a => decide (medianOnlyVal a = 0)) (fun _ => 5) (fun _ => 0)
      ((0 : ℕ) : ℤ) = 0 ∧
    (5 : ℚ) ≠ 0 := by
  have h1 : medianOnlyVal 0 = 1 := by
    rw [medianOnlyVal, neighbourValidation_some_eq_one, neighbourValidation_none_eq_one,
      medianVel_zero, medianFluc_zero]
    norm_num
  have h1ne : (fun a => decide (medianOnlyVal a = 0)) 0 = false :=
    decide_eq_false (by rw [h1]; norm_num)
  refine ⟨rfl, ?_, h1, replaceByField_unflagged 1 2 _ _ _ 0 h1ne, by norm_num⟩
  rw [medianPass, medianVel_zero, medianFluc_zero]
  simp only [medianOnlyCfg]
  norm_num

end PivGpu
